import Mathlib

/-!
Verification of the "your-daily-browsing-digest" Chrome extension core:
a shallow embedding of the content-extraction text pipeline
(`src/extension/content.js`) and of the background record store
(`src/unnamed/part_000`: `savePageData`, `getHistory`, `exportData`,
`clearHistory`), with theorems settling the spec's claims about them.

Strings are modelled as Lean `String`s (lists of characters); JS string
indices/lengths are code-unit based, which coincides with character counts
for the ASCII inputs used in all concrete witnesses.  JS
`new Date(x).toDateString()` (local calendar-day derivation) is modelled
as an abstract function parameter `toDS : String → String`, since its
timezone behaviour is outside the repository's code; all store theorems
are proved for every such function.
-/

namespace BrowsingDigest

/-! ## JS primitive modelling -/

/-- Characters matched by the JS regex class `\s` (the cases relevant to
this code base: space, tab, newline, carriage return, vertical tab, form
feed). -/
def jsIsWs (c : Char) : Bool :=
  c == ' ' || c == '\t' || c == '\n' || c == '\r' || c == '\x0b' || c == '\x0c'

/-- Does the character list `pat` occur (contiguously) inside `l`?  Models
a JS regex test for a literal pattern, e.g. `/localhost/.test(url)`. -/
def listContains : List Char → List Char → Bool
  | [], pat => pat.isEmpty
  | l@(_ :: t), pat => pat.isPrefixOf l || listContains t pat

/-- JS `String.prototype.trim()`: strip leading and trailing whitespace
from a character list. -/
def jsTrim (l : List Char) : List Char :=
  ((l.dropWhile jsIsWs).reverse.dropWhile jsIsWs).reverse

/-- JS `text.trim()` on strings. -/
def strTrim (s : String) : String := String.mk (jsTrim s.data)

/-- One left-to-right pass of JS `text.replace(/\s+/g, ' ')`: the first
whitespace character of each maximal whitespace run emits a single space
(`inRun = false`), the rest of the run emits nothing (`inRun = true`);
non-whitespace characters are copied and reset the run flag. -/
def collapseWsAux : Bool → List Char → List Char
  | _, [] => []
  | inRun, c :: cs =>
    if jsIsWs c then
      if inRun then collapseWsAux true cs else ' ' :: collapseWsAux true cs
    else c :: collapseWsAux false cs

/-- JS `text.replace(/\s+/g, ' ')` (content.js line 143). -/
def collapseWs (l : List Char) : List Char := collapseWsAux false l

/-- Rewrite one maximal whitespace run for `replace(/\n\s*\n/g, '\n\n')`:
the regex `\n\s*\n` (with greedy `\s*` backtracking to end at a newline)
matches inside a whitespace run exactly when the run holds at least two
newlines, and the match then spans from the run's first newline to its
last one, so that span is replaced by two newlines and the run's
whitespace before/after that span survives. -/
def emitWsRun (buf : List Char) : List Char :=
  if 2 ≤ buf.count '\n' then
    buf.takeWhile (fun c => !(c == '\n')) ++
      '\n' :: '\n' :: (buf.reverse.takeWhile (fun c => !(c == '\n'))).reverse
  else buf

/-- Scanner for JS `text.replace(/\n\s*\n/g, '\n\n')` (content.js line
144): buffer each maximal whitespace run and rewrite it with
`emitWsRun`; a match never crosses a non-whitespace character because
every character of `\n\s*\n` is whitespace. -/
def rbAux : List Char → List Char → List Char
  | buf, [] => emitWsRun buf
  | buf, c :: cs =>
    if jsIsWs c then rbAux (buf ++ [c]) cs
    else emitWsRun buf ++ c :: rbAux [] cs

/-- JS `text.replace(/\n\s*\n/g, '\n\n')`. -/
def replaceBlankLines (l : List Char) : List Char := rbAux [] l

/-- Whitespace cleanup of `extractMainContent` (content.js lines 142-145):
`text.replace(/\s+/g, ' ').replace(/\n\s*\n/g, '\n\n').trim()`. -/
def normalizeText (text : String) : String :=
  String.mk (jsTrim (replaceBlankLines (collapseWs text.data)))

/-- The `maxLength` constant of `extractMainContent` (content.js line 148). -/
def maxLength : Nat := 5000

/-- Truncation step of `extractMainContent` (content.js lines 147-151):
`if (text.length > maxLength) text = text.substring(0, maxLength) + '... [truncated]'`. -/
def truncateContent (text : String) : String :=
  if text.length > maxLength then
    String.mk (text.data.take maxLength) ++ "... [truncated]"
  else text

/-- Full text pipeline applied to the selected element's text content:
normalization followed by truncation (content.js lines 139-153). -/
def cleanContent (text : String) : String := truncateContent (normalizeText text)

/-! ## Word count and reading time (content.js lines 57-59) -/

/-- JS `content.split(/\s+/)`: split into the pieces between maximal
whitespace runs.  `inSep` records whether the previous character belonged
to a separator run; `acc` accumulates the current piece reversed.  As in
JS, a leading or trailing separator contributes an empty piece and the
empty string splits to `[""]`. -/
def jsSplitAux : Bool → List Char → List Char → List (List Char)
  | _, acc, [] => [acc.reverse]
  | inSep, acc, c :: cs =>
    if jsIsWs c then
      if inSep then jsSplitAux true acc cs
      else acc.reverse :: jsSplitAux true [] cs
    else jsSplitAux false (c :: acc) cs

/-- JS `content.split(/\s+/)` on strings. -/
def jsSplitWs (s : String) : List String :=
  (jsSplitAux false [] s.data).map (fun l => String.mk l)

/-- `const wordCount = content.split(/\s+/).length` (content.js line 58). -/
def wordCount (content : String) : Nat := (jsSplitWs content).length

/-- `const readingTime = Math.ceil(wordCount / 200)` (content.js line 59),
as the ceiling of the natural division. -/
def readingTime (wc : Nat) : Nat := (wc + 199) / 200

/-- Modelled from the spec: "`wordCount` = count of whitespace-delimited
tokens in cleaned content".  `inTok` records whether the previous
character belonged to a token, so each maximal non-whitespace run counts
once and the empty string has zero tokens.  This spec-side definition is
compared against the code's `wordCount`. -/
def tokCountAux : Bool → List Char → Nat
  | _, [] => 0
  | inTok, c :: cs =>
    if jsIsWs c then tokCountAux false cs
    else (if inTok then 0 else 1) + tokCountAux true cs

/-- Modelled from the spec: the number of whitespace-delimited tokens of a
string. -/
def specTokenCount (s : String) : Nat := tokCountAux false s.data

/-- Does the list start with a whitespace character? -/
def startsWs (l : List Char) : Bool :=
  match l.head? with
  | some c => jsIsWs c
  | none => false

/-- Does the list start with a token (non-whitespace) character? -/
def startsTok (l : List Char) : Bool :=
  match l.head? with
  | some c => !jsIsWs c
  | none => false

/-- Is the list empty or ending in a whitespace character?  (Exactly the
inputs on which a JS `split(/\s+/)` produces a trailing empty piece.) -/
def endsBlank (l : List Char) : Bool :=
  match l.getLast? with
  | some c => jsIsWs c
  | none => true

/-! ## Eligibility gate (content.js lines 11-27) -/

/-- One URL exclusion pattern: the anchored regexes `/^chrome:/` etc. test
a literal prefix, the unanchored `/localhost/`, `/127\.0\.0\.1/`,
`/\.local/` test a literal substring anywhere in the URL. -/
inductive Pat where
  | startsWith (p : String)
  | contains (p : String)
deriving DecidableEq

/-- `pattern.test(currentUrl)` for the patterns of `skipPatterns`. -/
def Pat.test : Pat → String → Bool
  | .startsWith p, u => p.data.isPrefixOf u.data
  | .contains p, u => listContains u.data p.data

/-- The `skipPatterns` array (content.js lines 11-21). -/
def skipPatterns : List Pat :=
  [.startsWith "chrome:", .startsWith "chrome-extension:", .startsWith "about:",
   .startsWith "file:", .startsWith "data:", .startsWith "blob:",
   .contains "localhost", .contains "127.0.0.1", .contains ".local"]

/-- `skipPatterns.some(pattern => pattern.test(currentUrl))`
(content.js line 25): extraction is suppressed when this is `true`. -/
def shouldSkip (currentUrl : String) : Bool :=
  skipPatterns.any (fun pattern => pattern.test currentUrl)

/-- The hostname of a URL: the text between the first `://` and the next
`/`, `:`, `?` or `#` (empty if the URL has no `://`).  Used only by the
spec-side reading of the eligibility gate. -/
def afterScheme : List Char → Option (List Char)
  | [] => none
  | l@(_ :: t) =>
    if ("://".data).isPrefixOf l then some (l.drop 3) else afterScheme t

/-- Hostname of a URL string, for the spec-side gate. -/
def hostOf (u : String) : String :=
  match afterScheme u.data with
  | some r =>
    String.mk (r.takeWhile (fun c => !(c == '/' || c == ':' || c == '?' || c == '#')))
  | none => ""

/-- Modelled from the spec: the eligibility gate as the spec describes it
("internal browser pages, extension pages, `about:`, local `file:`,
`data:`, `blob:` URIs, and loopback/local hostnames (`localhost`,
`127.0.0.1`, any `.local` suffix)") — scheme tests on the URL plus
hostname-based tests, used to exhibit where the code diverges from this
description. -/
def shouldSkipSpec (u : String) : Bool :=
  ("chrome:".data.isPrefixOf u.data) || ("chrome-extension:".data.isPrefixOf u.data) ||
  ("about:".data.isPrefixOf u.data) || ("file:".data.isPrefixOf u.data) ||
  ("data:".data.isPrefixOf u.data) || ("blob:".data.isPrefixOf u.data) ||
  (hostOf u == "localhost") || (hostOf u == "127.0.0.1") ||
  (".local".data.isSuffixOf (hostOf u).data)

/-! ## Main-content selection (content.js lines 72-100) -/

/-- A loaded document, abstracted to what the selection step reads: for
each CSS selector, the text content of its first match (if any), and the
text content of the document body (the fallback). -/
structure Doc where
  query : String → Option String
  body : String

/-- The `mainSelectors` array (content.js lines 74-85). -/
def mainSelectors : List String :=
  ["article", "[role=\"main\"]", "main", ".post-content", ".article-content",
   ".entry-content", ".content", ".post", "#content", "#main"]

/-- The loop test `element && element.textContent.trim().length > 200`
(content.js line 91). -/
def qualifies (doc : Doc) (sel : String) : Bool :=
  match doc.query sel with
  | some text => decide (200 < (strTrim text).length)
  | none => false

/-- The selection loop (content.js lines 89-95): the first selector in
`mainSelectors` whose first match qualifies, or `none` when the loop
falls through. -/
def selectMain (doc : Doc) : Option String := mainSelectors.find? (qualifies doc)

/-- The text of the selected main element, falling back to the document
body when no selector qualifies (content.js lines 98-100). -/
def selectedText (doc : Doc) : String :=
  match selectMain doc with
  | some sel => (doc.query sel).getD doc.body
  | none => doc.body

/-! ## Record store (src/unnamed/part_000) -/

/-- `MAX_ENTRIES = 500` (part_000 line 4). -/
def MAX_ENTRIES : Nat := 500

/-- One stored record, with the fields `savePageData` stores: the
`pageData` payload from the content script plus the assigned `id` and
`savedAt`. -/
structure Capture where
  url : String
  title : String
  domain : String
  timestamp : String
  content : String
  wordCount : Nat
  readingTime : Nat
  id : String
  savedAt : String
deriving DecidableEq

/-- `savePageData` (part_000 lines 48-79): push the new entry (its `id`
and `savedAt` already assigned) at the end, then
`if (history.length > MAX_ENTRIES) history = history.slice(-MAX_ENTRIES)`
— keep only the last `MAX_ENTRIES` entries. -/
def savePageData (history : List Capture) (entry : Capture) : List Capture :=
  let pushed := history ++ [entry]
  if pushed.length > MAX_ENTRIES then
    pushed.drop (pushed.length - MAX_ENTRIES)
  else pushed

/-- `getHistory` (part_000 lines 82-103): with no date return the whole
history; with a date keep the entries whose
`new Date(entry.timestamp).toDateString()` equals
`new Date(date).toDateString()`.  The JS `Date`-to-date-string
derivation is the abstract parameter `toDS`. -/
def getHistory (toDS : String → String) (date : Option String)
    (history : List Capture) : List Capture :=
  match date with
  | some d =>
    let filterDateStr := toDS d
    history.filter (fun entry => toDS entry.timestamp == filterDateStr)
  | none => history

/-- The page shape of the export document (part_000 lines 112-119): only
`url`, `title`, `content`, `timestamp`, `domain`, `readingTime`. -/
structure ExportPage where
  url : String
  title : String
  content : String
  timestamp : String
  domain : String
  readingTime : Nat
deriving DecidableEq

/-- The projection applied to each entry by `exportData`. -/
def exportPage (entry : Capture) : ExportPage :=
  { url := entry.url, title := entry.title, content := entry.content,
    timestamp := entry.timestamp, domain := entry.domain,
    readingTime := entry.readingTime }

/-- The export document (part_000 lines 108-120). -/
structure ExportDoc where
  exportedAt : String
  date : String
  totalPages : Nat
  pages : List ExportPage
deriving DecidableEq

/-- `exportData` (part_000 lines 106-121): run `getHistory`, wrap with
`exportedAt` (the current instant, passed in), `date` (`date || 'all'`),
`totalPages` and the projected `pages`. -/
def exportData (toDS : String → String) (date : Option String)
    (exportedAt : String) (history : List Capture) : ExportDoc :=
  let h := getHistory toDS date history
  { exportedAt := exportedAt,
    date := match date with | some d => d | none => "all",
    totalPages := h.length,
    pages := h.map exportPage }

/-- `clearHistory` (part_000 lines 124-160): with no date store `[]`;
with a date keep exactly the entries whose date string differs from the
given day's. -/
def clearHistory (toDS : String → String) (date : Option String)
    (history : List Capture) : List Capture :=
  match date with
  | none => []
  | some d =>
    let filterDateStr := toDS d
    history.filter (fun entry => !(toDS entry.timestamp == filterDateStr))

/-! ## Concrete sample data for witnesses -/

/-- A sample stored record. -/
def sampleCapture : Capture :=
  { url := "https://example.com/article", title := "Example",
    domain := "example.com", timestamp := "2026-02-06T10:00:00.000Z",
    content := "hello world", wordCount := 2, readingTime := 1,
    id := "k1abc", savedAt := "2026-02-06T10:00:02.000Z" }

/-- The sample record with a different `id` and `savedAt` (all exported
fields unchanged). -/
def sampleCapture2 : Capture :=
  { sampleCapture with id := "k2def", savedAt := "2026-02-06T11:00:00.000Z" }

/-- A 5001-character string, exceeding `maxLength` by one. -/
def longText : String := String.mk (List.replicate 5001 'a')

/-- A document whose `article` match has 150 characters of text and whose
`main` match has 400, with no other selector matching. -/
def exDoc : Doc :=
  { query := fun sel =>
      if sel = "article" then some (String.mk (List.replicate 150 'a'))
      else if sel = "main" then some (String.mk (List.replicate 400 'b'))
      else none,
    body := "fallback body" }

/-- A document where no selector matches at all. -/
def emptyDoc : Doc := { query := fun _ => none, body := "the body text" }

/-! ## Theorems -/

set_option maxRecDepth 8000

/-- The pushed-then-trimmed history is always the last `MAX_ENTRIES`
entries of `history ++ [entry]` (dropping nothing when the length stays
within the cap, since the natural subtraction is then zero). -/
theorem savePageData_eq_drop (history : List Capture) (entry : Capture) :
    savePageData history entry =
      (history ++ [entry]).drop (history.length + 1 - MAX_ENTRIES) := by
  simp only [savePageData]
  split
  case isTrue h =>
    simp only [List.length_append, List.length_cons, List.length_nil]
  case isFalse h =>
    rw [List.length_append, List.length_cons, List.length_nil] at h
    have hz : history.length + 1 - MAX_ENTRIES = 0 := by omega
    rw [hz, List.drop_zero]

/-- Length after an append: the pushed length, clipped at the cap. -/
theorem savePageData_length (history : List Capture) (entry : Capture) :
    (savePageData history entry).length =
      history.length + 1 - (history.length + 1 - MAX_ENTRIES) := by
  rw [savePageData_eq_drop, List.length_drop, List.length_append,
    List.length_cons, List.length_nil]

/-- Folding `savePageData` over any batch of entries, starting from a
store within the cap, keeps exactly the most recent `MAX_ENTRIES`
elements of the concatenation. -/
theorem foldl_savePageData (cs : List Capture) :
    ∀ h : List Capture, h.length ≤ MAX_ENTRIES →
      cs.foldl savePageData h =
        (h ++ cs).drop (h.length + cs.length - MAX_ENTRIES) := by
  induction cs with
  | nil =>
    intro h hle
    have hz : h.length + ([] : List Capture).length - MAX_ENTRIES = 0 := by
      simp only [List.length_nil]
      omega
    rw [List.foldl_nil, hz, List.append_nil, List.drop_zero]
  | cons c cs ih =>
    intro h hle
    have hsle : (savePageData h c).length ≤ MAX_ENTRIES := by
      rw [savePageData_length]
      have : 0 < MAX_ENTRIES := by decide
      omega
    rw [List.foldl_cons, ih (savePageData h c) hsle, savePageData_eq_drop]
    have hle2 : h.length + 1 - MAX_ENTRIES ≤ (h ++ [c]).length := by
      simp only [List.length_append, List.length_cons, List.length_nil]
      omega
    rw [← List.drop_append_of_le_length hle2, List.drop_drop, List.length_drop]
    have harr : (h ++ [c]) ++ cs = h ++ c :: cs := by
      rw [List.append_assoc, List.singleton_append]
    rw [harr]
    congr 1
    simp only [List.length_append, List.length_cons, List.length_nil]
    omega

/-- C2: appending never leaves more than `MAX_ENTRIES` (500) entries;
every append retains exactly the most recent entries of the pushed list
(oldest dropped first); once the store is full an append keeps exactly
`MAX_ENTRIES` entries; and 501 sequential appends into an empty store of
any 501 captures (in particular distinct ones) leave exactly the 500 most
recent, i.e. drop exactly the oldest. -/
theorem savePageData_retention :
    (∀ (history : List Capture) (entry : Capture),
        (savePageData history entry).length ≤ MAX_ENTRIES)
    ∧ (∀ (history : List Capture) (entry : Capture),
        savePageData history entry =
          (history ++ [entry]).drop (history.length + 1 - MAX_ENTRIES))
    ∧ (∀ (history : List Capture) (entry : Capture),
        MAX_ENTRIES ≤ history.length →
        (savePageData history entry).length = MAX_ENTRIES)
    ∧ (∀ cs : List Capture, cs.length = MAX_ENTRIES + 1 →
        cs.foldl savePageData [] = cs.drop 1) := by
  refine ⟨?_, ?_, ?_, ?_⟩
  · intro history entry
    rw [savePageData_length]
    have : 0 < MAX_ENTRIES := by decide
    omega
  · exact savePageData_eq_drop
  · intro history entry hfull
    rw [savePageData_length]
    omega
  · intro cs hcs
    rw [foldl_savePageData cs [] (by simp), List.nil_append, List.length_nil, hcs]
    norm_num [MAX_ENTRIES]

/-- Witness for C2: a full store of 500 entries stays at 500 after an
append, and 501 sequential appends of 501 captures keep exactly the last
500 (drop the single oldest entry). -/
theorem savePageData_retention_witness :
    (savePageData (List.replicate MAX_ENTRIES sampleCapture) sampleCapture2).length
        = MAX_ENTRIES ∧
    (List.replicate (MAX_ENTRIES + 1) sampleCapture).foldl savePageData [] =
      (List.replicate (MAX_ENTRIES + 1) sampleCapture).drop 1 :=
  ⟨savePageData_retention.2.2.1 (List.replicate MAX_ENTRIES sampleCapture)
      sampleCapture2 (by simp),
   savePageData_retention.2.2.2 (List.replicate (MAX_ENTRIES + 1) sampleCapture)
      (by simp)⟩

/-- C3: `getHistory` with no date returns the whole history unchanged (in
insertion order); with a date it returns a subsequence of the history (so
in original order) holding exactly the entries whose derived date string
equals the requested day's; when no entry matches, it returns `[]`. -/
theorem getHistory_query_semantics :
    (∀ (toDS : String → String) (history : List Capture),
        getHistory toDS none history = history)
    ∧ (∀ (toDS : String → String) (d : String) (history : List Capture),
        (getHistory toDS (some d) history).Sublist history)
    ∧ (∀ (toDS : String → String) (d : String) (history : List Capture)
        (entry : Capture),
        entry ∈ getHistory toDS (some d) history ↔
          entry ∈ history ∧ toDS entry.timestamp = toDS d)
    ∧ (∀ (toDS : String → String) (d : String) (history : List Capture),
        (∀ entry ∈ history, toDS entry.timestamp ≠ toDS d) →
        getHistory toDS (some d) history = []) := by
  refine ⟨fun _ _ => rfl, ?_, ?_, ?_⟩
  · intro toDS d history
    exact List.filter_sublist history
  · intro toDS d history entry
    simp [getHistory, List.mem_filter]
  · intro toDS d history h
    simp only [getHistory, List.filter_eq_nil_iff]
    intro entry hmem
    simpa using h entry hmem

/-- Witness for C3: on a one-entry store whose entry's timestamp maps to a
different day string, the date query returns the empty list. -/
theorem getHistory_query_semantics_witness :
    getHistory (fun s => s) (some "2026-02-07") [sampleCapture] = [] :=
  getHistory_query_semantics.2.2.2 (fun s => s) "2026-02-07" [sampleCapture]
    (by decide)

/-- C4: `clearHistory` with no date empties the store; with a date it
keeps a subsequence of the history (original relative order) holding
exactly the entries whose derived date string differs from the requested
day's — the exact complement of the `getHistory` filter, as the length
equation shows. -/
theorem clearHistory_semantics :
    (∀ (toDS : String → String) (history : List Capture),
        clearHistory toDS none history = [])
    ∧ (∀ (toDS : String → String) (d : String) (history : List Capture),
        (clearHistory toDS (some d) history).Sublist history)
    ∧ (∀ (toDS : String → String) (d : String) (history : List Capture)
        (entry : Capture),
        entry ∈ clearHistory toDS (some d) history ↔
          entry ∈ history ∧ toDS entry.timestamp ≠ toDS d)
    ∧ (∀ (toDS : String → String) (d : String) (history : List Capture),
        (clearHistory toDS (some d) history).length +
          (getHistory toDS (some d) history).length = history.length) := by
  refine ⟨fun _ _ => rfl, ?_, ?_, ?_⟩
  · intro toDS d history
    exact List.filter_sublist history
  · intro toDS d history entry
    simp [clearHistory, List.mem_filter]
  · intro toDS d history
    simp only [clearHistory, getHistory]
    induction history with
    | nil => rfl
    | cons c cs ih =>
      simp only [List.filter_cons]
      cases h : (toDS c.timestamp == toDS d) <;> simp [h] <;> omega

/-- Witness for C4: clearing with no date empties a one-entry store. -/
theorem clearHistory_semantics_witness :
    clearHistory (fun s => s) none [sampleCapture] = [] :=
  clearHistory_semantics.1 (fun s => s) [sampleCapture]

/-- C5: the export document's `totalPages` is the length of the
corresponding query result; its `pages` are the image of the query result
under the `exportPage` projection; its `date` is the requested day, or
`"all"` when no date is given; its `exportedAt` is the passed instant;
and the projection depends only on `url`, `title`, `content`,
`timestamp`, `domain` and `readingTime` — two captures agreeing on those
six fields export identically, whatever their `id`, `savedAt` and
`wordCount` (those fields are omitted). -/
theorem exportData_shape :
    (∀ (toDS : String → String) (date : Option String) (now : String)
        (history : List Capture),
        (exportData toDS date now history).totalPages =
          (getHistory toDS date history).length)
    ∧ (∀ (toDS : String → String) (date : Option String) (now : String)
        (history : List Capture),
        (exportData toDS date now history).pages =
          (getHistory toDS date history).map exportPage)
    ∧ (∀ (toDS : String → String) (d : String) (now : String)
        (history : List Capture),
        (exportData toDS (some d) now history).date = d)
    ∧ (∀ (toDS : String → String) (now : String) (history : List Capture),
        (exportData toDS none now history).date = "all")
    ∧ (∀ (toDS : String → String) (date : Option String) (now : String)
        (history : List Capture),
        (exportData toDS date now history).exportedAt = now)
    ∧ (∀ e₁ e₂ : Capture, e₁.url = e₂.url → e₁.title = e₂.title →
        e₁.content = e₂.content → e₁.timestamp = e₂.timestamp →
        e₁.domain = e₂.domain → e₁.readingTime = e₂.readingTime →
        exportPage e₁ = exportPage e₂) := by
  refine ⟨fun _ _ _ _ => rfl, fun _ _ _ _ => rfl, fun _ _ _ _ => rfl,
    fun _ _ _ => rfl, fun _ _ _ _ => rfl, ?_⟩
  intro e₁ e₂ h1 h2 h3 h4 h5 h6
  simp [exportPage, h1, h2, h3, h4, h5, h6]

/-- Witness for C5: two captures differing only in `id` and `savedAt`
export to the same page object. -/
theorem exportData_shape_witness :
    exportPage sampleCapture = exportPage sampleCapture2 :=
  exportData_shape.2.2.2.2.2 sampleCapture sampleCapture2 rfl rfl rfl rfl rfl rfl

/-- C1 counterexample: a cleaned text of 5001 characters is stored as
5000 characters plus the 15-character marker `... [truncated]` — 5015
characters, strictly more than the claimed 5000 bound. -/
theorem truncateContent_counterexample :
    (truncateContent longText).length = 5015 ∧
    5000 < (truncateContent longText).length := by
  have hdata : longText.data = List.replicate 5001 'a' := rfl
  have hlen : longText.length = 5001 := by
    rw [longText, String.length_mk, List.length_replicate]
  have hgt : longText.length > maxLength := by
    rw [hlen]
    norm_num [maxLength]
  have hval : (truncateContent longText).length = 5015 := by
    have hm : ("... [truncated]" : String).length = 15 := by decide
    rw [truncateContent, if_pos hgt, String.length_append, String.length_mk,
      hdata, List.length_take, List.length_replicate, hm]
    norm_num [maxLength]
  exact ⟨hval, by omega⟩

/-- C1 (amended): text within the 5000-character bound is stored
unchanged; text exceeding it is stored as its 5000-character cut followed
by the truncation marker, for 5015 characters total (so the stored
content ends with the marker and its length is bounded by 5015, not
5000). -/
theorem truncateContent_spec :
    (∀ s : String, s.length ≤ maxLength → truncateContent s = s)
    ∧ (∀ s : String, maxLength < s.length →
        (truncateContent s).length = 5015 ∧
        ("... [truncated]").data <:+ (truncateContent s).data)
    ∧ (∀ s : String, (truncateContent s).length ≤ max s.length 5015) := by
  have hmark : ("... [truncated]" : String).length = 15 := by decide
  have h2 : ∀ s : String, maxLength < s.length →
      (truncateContent s).length = 5015 ∧
      ("... [truncated]").data <:+ (truncateContent s).data := by
    intro s hgt
    have hif : truncateContent s =
        String.mk (s.data.take maxLength) ++ "... [truncated]" := by
      rw [truncateContent, if_pos hgt]
    constructor
    · rw [hif, String.length_append, String.length_mk, List.length_take, hmark]
      have hdl : s.length = s.data.length := by
        cases s
        rw [String.length_mk]
      rw [maxLength] at hgt ⊢
      omega
    · rw [hif, String.data_append]
      have : (String.mk (s.data.take maxLength)).data = s.data.take maxLength := rfl
      rw [this]
      exact List.suffix_append _ _
  have h1 : ∀ s : String, s.length ≤ maxLength → truncateContent s = s := by
    intro s hle
    rw [truncateContent, if_neg]
    omega
  refine ⟨h1, h2, ?_⟩
  intro s
  by_cases h : maxLength < s.length
  · have := (h2 s h).1
    omega
  · rw [h1 s (by omega)]
    omega

/-- Witness for C1 (amended): a 2-character text is stored unchanged and
the 5001-character text is stored with exactly 5015 characters. -/
theorem truncateContent_spec_witness :
    truncateContent "ab" = "ab" ∧ (truncateContent longText).length = 5015 :=
  ⟨truncateContent_spec.1 "ab" (by decide),
   (truncateContent_spec.2.1 longText
      (by rw [longText, String.length_mk, List.length_replicate]
          norm_num [maxLength])).1⟩

/-- `find?` skips a block of elements on which the predicate is false. -/
theorem find?_append_all_neg {α : Type} (p : α → Bool) :
    ∀ l₁ l₂ : List α, (∀ x ∈ l₁, p x = false) →
      (l₁ ++ l₂).find? p = l₂.find? p := by
  intro l₁
  induction l₁ with
  | nil => intro l₂ _; rw [List.nil_append]
  | cons a t ih =>
    intro l₂ h
    rw [List.cons_append, List.find?_cons_of_neg]
    · exact ih l₂ (fun x hx => h x (List.mem_cons_of_mem a hx))
    · simp [h a (List.mem_cons_self a t)]

/-- C6: the selection loop takes the first selector of the fixed
prioritized list whose first match has trimmed text longer than 200
characters — whatever any later selector would match — and when no
selector qualifies it falls back to the document body; in particular on a
document where `article` matches 150 characters and `main` matches 400,
`main` is chosen. -/
theorem selection_first_match :
    (∀ (doc : Doc) (pre : List String) (sel : String) (post : List String),
        mainSelectors = pre ++ sel :: post →
        (∀ s ∈ pre, qualifies doc s = false) →
        qualifies doc sel = true →
        selectMain doc = some sel ∧
          selectedText doc = (doc.query sel).getD doc.body)
    ∧ (∀ doc : Doc, (∀ s ∈ mainSelectors, qualifies doc s = false) →
        selectMain doc = none ∧ selectedText doc = doc.body)
    ∧ (selectMain exDoc = some "main" ∧
        selectedText exDoc = String.mk (List.replicate 400 'b')) := by
  refine ⟨?_, ?_, by decide, by decide⟩
  · intro doc pre sel post heq hpre hsel
    have h1 : selectMain doc = some sel := by
      rw [selectMain, heq, find?_append_all_neg _ pre (sel :: post) hpre,
        List.find?_cons_of_pos _ hsel]
    refine ⟨h1, ?_⟩
    rw [selectedText, h1]
  · intro doc h
    have h1 : selectMain doc = none := by
      rw [selectMain, List.find?_eq_none]
      intro x hx
      simp [h x hx]
    refine ⟨h1, ?_⟩
    rw [selectedText, h1]

/-- Witness for C6: on the 150/400-character document the first two
selectors fail the threshold and `main` is selected; on a document with
no matches at all, no selector is selected (body fallback). -/
theorem selection_first_match_witness :
    selectMain exDoc = some "main" ∧ selectMain emptyDoc = none :=
  ⟨(selection_first_match.1 exDoc ["article", "[role=\"main\"]"] "main"
      [".post-content", ".article-content", ".entry-content", ".content",
       ".post", "#content", "#main"] rfl (by decide) (by decide)).1,
   (selection_first_match.2.1 emptyDoc (by decide)).1⟩

/-- Substring occurrence as tested by `listContains` coincides with the
infix relation on character lists. -/
theorem listContains_iff (l pat : List Char) :
    listContains l pat = true ↔ pat <:+: l := by
  induction l with
  | nil => simp [listContains, List.isEmpty_iff, List.infix_nil]
  | cons a t ih =>
    simp [listContains, List.infix_cons_iff, ih, List.isPrefixOf_iff_prefix]

/-- C7 counterexample: the URL
`https://example.com/guide-to-localhost` has scheme `https` and hostname
`example.com` — not a browser-internal scheme and not a loopback/local
hostname, so the claimed exclusion set accepts it — yet the code's gate
suppresses extraction because the unanchored pattern `/localhost/`
matches inside the path. -/
theorem skip_gate_counterexample :
    shouldSkip "https://example.com/guide-to-localhost" = true ∧
    hostOf "https://example.com/guide-to-localhost" = "example.com" ∧
    shouldSkipSpec "https://example.com/guide-to-localhost" = false := by
  refine ⟨by decide, by decide, by decide⟩

/-- C7 (amended): extraction is suppressed exactly when the URL starts
with one of the six scheme patterns or contains `localhost`, `127.0.0.1`
or `.local` as a substring anywhere in the whole URL string (not only as
its hostname); the four listed URLs are rejected and
`https://example.com/article` is accepted. -/
theorem skip_gate_characterization :
    (∀ u : String, shouldSkip u = true ↔
        ("chrome:".data <+: u.data ∨ "chrome-extension:".data <+: u.data ∨
         "about:".data <+: u.data ∨ "file:".data <+: u.data ∨
         "data:".data <+: u.data ∨ "blob:".data <+: u.data ∨
         "localhost".data <:+: u.data ∨ "127.0.0.1".data <:+: u.data ∨
         ".local".data <:+: u.data))
    ∧ shouldSkip "chrome-extension://abc/page" = true
    ∧ shouldSkip "about:blank" = true
    ∧ shouldSkip "http://localhost:3000" = true
    ∧ shouldSkip "http://127.0.0.1/x" = true
    ∧ shouldSkip "https://example.com/article" = false := by
  refine ⟨?_, by decide, by decide, by decide, by decide, by decide⟩
  intro u
  simp [shouldSkip, skipPatterns, Pat.test, List.isPrefixOf_iff_prefix,
    listContains_iff]

/-- Witness for C7 (amended): one of the listed rejections, derived from
the characterization theorem. -/
theorem skip_gate_characterization_witness :
    shouldSkip "about:blank" = true :=
  skip_gate_characterization.2.2.1

/-- Every whitespace character surviving the `\s+` collapse is a plain
space. -/
theorem mem_collapseWsAux_ws :
    ∀ (b : Bool) (l : List Char) (c : Char),
      c ∈ collapseWsAux b l → jsIsWs c = true → c = ' ' := by
  intro b l
  induction l generalizing b with
  | nil => intro c hc; simp [collapseWsAux] at hc
  | cons a t ih =>
    intro c hc hws
    simp only [collapseWsAux] at hc
    by_cases h : jsIsWs a
    · rw [if_pos h] at hc
      cases b with
      | true => exact ih true c (by simpa using hc) hws
      | false =>
        rcases List.mem_cons.mp (by simpa using hc) with heq | hmem
        · exact heq
        · exact ih true c hmem hws
    · rw [if_neg h] at hc
      rcases List.mem_cons.mp hc with heq | hmem
      · exact absurd (heq ▸ hws) (by simpa using h)
      · exact ih false c hmem hws

/-- Inside a whitespace run (`inRun = true`) the collapse emits nothing
until the next non-whitespace character, so its output never starts with
whitespace. -/
theorem head_collapseWsAux_true :
    ∀ (l : List Char) (c : Char),
      (collapseWsAux true l).head? = some c → jsIsWs c = false := by
  intro l
  induction l with
  | nil => intro c hc; simp [collapseWsAux] at hc
  | cons a t ih =>
    intro c hc
    simp only [collapseWsAux] at hc
    by_cases h : jsIsWs a
    · rw [if_pos h] at hc
      exact ih c (by simpa using hc)
    · rw [if_neg h] at hc
      simp only [List.head?_cons, Option.some.injEq] at hc
      rw [← hc]
      simpa using h

/-- The collapse output never has two adjacent whitespace characters. -/
theorem chain_collapseWsAux :
    ∀ (b : Bool) (l : List Char),
      List.Chain' (fun x y => ¬(jsIsWs x = true ∧ jsIsWs y = true))
        (collapseWsAux b l) := by
  intro b l
  induction l generalizing b with
  | nil => simp [collapseWsAux]
  | cons a t ih =>
    simp only [collapseWsAux]
    by_cases h : jsIsWs a
    · rw [if_pos h]
      cases b with
      | true => simpa using ih true
      | false =>
        simp only [Bool.false_eq_true, if_false]
        rw [List.chain'_cons']
        refine ⟨?_, ih true⟩
        intro y hy
        intro hcon
        have := head_collapseWsAux_true t y hy
        rw [this] at hcon
        exact absurd hcon.2 (by simp)
    · rw [if_neg h]
      rw [List.chain'_cons']
      refine ⟨?_, ih false⟩
      intro y _ hcon
      exact h hcon.1

/-- No newline survives the `\s+` collapse. -/
theorem nl_not_mem_collapseWs (l : List Char) : '\n' ∉ collapseWs l := by
  intro hm
  have := mem_collapseWsAux_ws false l '\n' hm (by decide)
  exact absurd this (by decide)

/-- A whitespace-run buffer holding no newline is emitted unchanged. -/
theorem emitWsRun_no_newline (buf : List Char) (h : '\n' ∉ buf) :
    emitWsRun buf = buf := by
  have hc : ¬ 2 ≤ buf.count '\n' := by
    rw [List.count_eq_zero_of_not_mem h]
    omega
  rw [emitWsRun, if_neg hc]

/-- On newline-free text the blank-line rewrite is the identity: the
regex `\n\s*\n` can never match. -/
theorem rbAux_no_newline :
    ∀ (l buf : List Char), '\n' ∉ buf → '\n' ∉ l → rbAux buf l = buf ++ l := by
  intro l
  induction l with
  | nil =>
    intro buf hb _
    rw [rbAux, emitWsRun_no_newline buf hb, List.append_nil]
  | cons c cs ih =>
    intro buf hb hl
    have hcnl : c ≠ '\n' := fun h => hl (h ▸ List.mem_cons_self c cs)
    have hcs : '\n' ∉ cs := fun h => hl (List.mem_cons_of_mem c h)
    simp only [rbAux]
    by_cases h : jsIsWs c
    · have hbuf : '\n' ∉ buf ++ [c] := by
        intro hm
        rcases List.mem_append.mp hm with h1 | h2
        · exact hb h1
        · have h3 : '\n' = c := by simpa using h2
          exact hcnl h3.symm
      rw [if_pos h, ih (buf ++ [c]) hbuf hcs, List.append_assoc,
        List.singleton_append]
    · rw [if_neg h, emitWsRun_no_newline buf hb, ih [] (by simp) hcs,
        List.nil_append]

/-- The first element left by `dropWhile` fails the predicate. -/
theorem dropWhile_head_not (p : Char → Bool) :
    ∀ (l : List Char) (c : Char),
      (l.dropWhile p).head? = some c → p c = false := by
  intro l
  induction l with
  | nil => intro c hc; simp [List.dropWhile] at hc
  | cons a t ih =>
    intro c hc
    rw [List.dropWhile_cons] at hc
    by_cases h : p a
    · rw [if_pos (by simpa using h)] at hc
      exact ih c hc
    · rw [if_neg (by simpa using h)] at hc
      simp only [List.head?_cons, Option.some.injEq] at hc
      rw [← hc]
      simpa using h

/-- A suffix of a reversed list reverses to a prefix of the list. -/
theorem suffix_rev_to_pre {X A : List Char} (h : X <:+ A.reverse) :
    X.reverse <+: A := by
  obtain ⟨t, ht⟩ := h
  refine ⟨t.reverse, ?_⟩
  have h2 := congrArg List.reverse ht
  simpa [List.reverse_append] using h2

/-- A prefix starting with `c` forces the longer list to start with `c`. -/
theorem pre_head_eq {l₁ l₂ : List Char} {c : Char} (h : l₁ <+: l₂)
    (hc : l₁.head? = some c) : l₂.head? = some c := by
  obtain ⟨t, rfl⟩ := h
  cases l₁ with
  | nil => simp at hc
  | cons a s => simpa using hc

/-- Trimming keeps a contiguous middle part of the list. -/
theorem jsTrim_within (l : List Char) : jsTrim l <:+: l := by
  rw [jsTrim]
  have h1 : ((l.dropWhile jsIsWs).reverse.dropWhile jsIsWs).reverse <+:
      l.dropWhile jsIsWs :=
    suffix_rev_to_pre (List.dropWhile_suffix jsIsWs)
  have h2 : l.dropWhile jsIsWs <:+ l := List.dropWhile_suffix jsIsWs
  exact h1.isInfix.trans h2.isInfix

/-- The head of a trimmed list is never whitespace. -/
theorem jsTrim_head_not_ws (l : List Char) (c : Char)
    (h : (jsTrim l).head? = some c) : jsIsWs c = false := by
  rw [jsTrim] at h
  have hpre : ((l.dropWhile jsIsWs).reverse.dropWhile jsIsWs).reverse <+:
      l.dropWhile jsIsWs :=
    suffix_rev_to_pre (List.dropWhile_suffix jsIsWs)
  exact dropWhile_head_not jsIsWs l c (pre_head_eq hpre h)

/-- The last element of a trimmed list is never whitespace. -/
theorem jsTrim_getLast_not_ws (l : List Char) (c : Char)
    (h : (jsTrim l).getLast? = some c) : jsIsWs c = false := by
  rw [jsTrim, List.getLast?_reverse] at h
  exact dropWhile_head_not jsIsWs _ c h

/-- The normalized text is the collapse output trimmed: the blank-line
rewrite in between is the identity because the collapse left no
newline. -/
theorem normalizeText_data (s : String) :
    (normalizeText s).data = jsTrim (collapseWs s.data) := by
  rw [normalizeText, replaceBlankLines,
    rbAux_no_newline (collapseWs s.data) [] (by simp)
      (nl_not_mem_collapseWs s.data), List.nil_append]

/-- Every whitespace character of the normalized text is a plain space. -/
theorem normalizeText_all_ws_space (s : String) (c : Char)
    (hc : c ∈ (normalizeText s).data) (hws : jsIsWs c = true) : c = ' ' := by
  rw [normalizeText_data] at hc
  exact mem_collapseWsAux_ws false s.data c
    ((jsTrim_within (collapseWs s.data)).subset hc) hws

/-- The normalized text has no two adjacent whitespace characters. -/
theorem normalizeText_chain (s : String) :
    List.Chain' (fun x y => ¬(jsIsWs x = true ∧ jsIsWs y = true))
      (normalizeText s).data := by
  rw [normalizeText_data]
  exact List.Chain'.infix (chain_collapseWsAux false s.data)
    (jsTrim_within (collapseWs s.data))

/-- The normalized text does not start with whitespace. -/
theorem normalizeText_head (s : String) (c : Char)
    (h : (normalizeText s).data.head? = some c) : jsIsWs c = false := by
  rw [normalizeText_data] at h
  exact jsTrim_head_not_ws (collapseWs s.data) c h

/-- The normalized text does not end with whitespace. -/
theorem normalizeText_getLast (s : String) (c : Char)
    (h : (normalizeText s).data.getLast? = some c) : jsIsWs c = false := by
  rw [normalizeText_data] at h
  exact jsTrim_getLast_not_ws (collapseWs s.data) c h

/-- The normalized text holds no newline at all. -/
theorem normalizeText_no_newline (s : String) :
    '\n' ∉ (normalizeText s).data := by
  intro hm
  exact absurd (normalizeText_all_ws_space s '\n' hm (by decide)) (by decide)

/-- C9 counterexample: on `"a\n\n\n\nb"` — multiple blank lines — the
normalized output is `"a b"`, which differs from the `"a\n\nb"` the
claimed blank-line collapsing would leave and holds no newline (hence no
blank line) at all. -/
theorem normalize_counterexample :
    normalizeText "a\n\n\n\nb" = "a b" ∧
    ("a b" == "a\n\nb") = false ∧
    (normalizeText "a\n\n\n\nb").data.contains '\n' = false := by
  refine ⟨by decide, by decide, by decide⟩

/-- C9 (amended): the normalized output collapses each whitespace run —
blank lines included — to a single space and has no leading or trailing
whitespace; no newline survives, so the blank-line-collapsing step of the
pipeline never produces a blank line in the output. -/
theorem normalize_whitespace_amended :
    ∀ s : String,
      List.Chain' (fun x y => ¬(jsIsWs x = true ∧ jsIsWs y = true))
        (normalizeText s).data ∧
      (∀ c ∈ (normalizeText s).data, jsIsWs c = true → c = ' ') ∧
      (∀ c : Char, (normalizeText s).data.head? = some c → jsIsWs c = false) ∧
      (∀ c : Char, (normalizeText s).data.getLast? = some c → jsIsWs c = false) ∧
      (normalizeText s).data.contains '\n' = false := by
  intro s
  refine ⟨normalizeText_chain s, fun c hc hw => normalizeText_all_ws_space s c hc hw,
    fun c h => normalizeText_head s c h,
    fun c h => normalizeText_getLast s c h, ?_⟩
  simpa using normalizeText_no_newline s

/-- Witness for C9 (amended): on `"  hello   world "` the normalized
output starts with the non-whitespace character `h`. -/
theorem normalize_whitespace_amended_witness :
    jsIsWs 'h' = false :=
  (normalize_whitespace_amended "  hello   world ").2.2.1 'h' (by decide)

/-- A JS split always produces at least one piece. -/
theorem jsSplitAux_length_ge_one :
    ∀ (l : List Char) (inSep : Bool) (acc : List Char),
      1 ≤ (jsSplitAux inSep acc l).length := by
  intro l
  induction l with
  | nil => intro inSep acc; simp [jsSplitAux]
  | cons c cs ih =>
    intro inSep acc
    cases inSep <;> by_cases h : jsIsWs c <;> simp [jsSplitAux, h] <;>
      first
      | exact ih true acc
      | exact ih false (c :: acc)

/-- The number of split pieces does not depend on the accumulated
current piece. -/
theorem jsSplitAux_length_acc :
    ∀ (l : List Char) (inSep : Bool) (acc₁ acc₂ : List Char),
      (jsSplitAux inSep acc₁ l).length = (jsSplitAux inSep acc₂ l).length := by
  intro l
  induction l with
  | nil => intro inSep acc₁ acc₂; simp [jsSplitAux]
  | cons c cs ih =>
    intro inSep acc₁ acc₂
    cases inSep <;> by_cases h : jsIsWs c <;> simp [jsSplitAux, h] <;>
      first
      | exact ih true acc₁ acc₂
      | exact ih false (c :: acc₁) (c :: acc₂)

/-- Starting a token adds one to the count relative to the
inside-a-token state. -/
theorem tokCountAux_false_eq (l : List Char) :
    tokCountAux false l =
      tokCountAux true l + (if startsTok l then 1 else 0) := by
  cases l with
  | nil => simp [tokCountAux, startsTok]
  | cons c cs =>
    by_cases h : jsIsWs c <;> simp [tokCountAux, startsTok, h]
    omega

/-- Starting a split outside a separator adds one piece exactly when the
text opens with whitespace (the leading empty piece of a JS split). -/
theorem jsSplitAux_false_eq (l : List Char) (acc : List Char) :
    (jsSplitAux false acc l).length =
      (jsSplitAux true acc l).length + (if startsWs l then 1 else 0) := by
  cases l with
  | nil => simp [jsSplitAux, startsWs]
  | cons c cs =>
    by_cases h : jsIsWs c
    · simp [jsSplitAux, h, startsWs]
      exact jsSplitAux_length_acc cs true [] acc
    · simp [jsSplitAux, h, startsWs]

/-- Piece count of a split already inside a separator: the token count,
plus the trailing empty piece produced when the text is empty or ends in
whitespace. -/
theorem jsSplitAux_true_length :
    ∀ (l : List Char) (acc : List Char),
      (jsSplitAux true acc l).length =
        tokCountAux false l + (if endsBlank l then 1 else 0) := by
  intro l
  induction l with
  | nil => intro acc; simp [jsSplitAux, tokCountAux, endsBlank]
  | cons c cs ih =>
    intro acc
    by_cases h : jsIsWs c
    · simp only [jsSplitAux, if_pos h, if_true]
      rw [ih acc]
      simp only [tokCountAux, if_pos h]
      congr 1
      cases cs with
      | nil => simp [endsBlank, h]
      | cons d ds => simp [endsBlank, List.getLast?_cons_cons]
    · simp only [jsSplitAux, if_neg h]
      rw [jsSplitAux_false_eq cs (c :: acc), ih (c :: acc),
        tokCountAux_false_eq cs]
      simp only [tokCountAux, if_neg h]
      cases cs with
      | nil => simp [endsBlank, startsWs, startsTok, tokCountAux, h]
      | cons d ds =>
        by_cases hd : jsIsWs d <;>
          simp [endsBlank, startsWs, startsTok, hd,
            List.getLast?_cons_cons] <;> omega

/-- The code's `wordCount` versus the spec's token count: the JS split
adds one phantom piece for a leading whitespace run and one for a
trailing whitespace run or empty text. -/
theorem wordCount_formula (s : String) :
    wordCount s = specTokenCount s + (if startsWs s.data then 1 else 0) +
      (if endsBlank s.data then 1 else 0) := by
  rw [wordCount, jsSplitWs, List.length_map, jsSplitAux_false_eq,
    jsSplitAux_true_length, specTokenCount]
  omega

/-- C8 counterexample: the empty cleaned content has zero
whitespace-delimited tokens, yet the code computes `wordCount = 1`
(JS `"".split(/\s+/)` is `[""]`), so `wordCount` differs from the token
count and `wordCount > 0` does not imply non-empty content. -/
theorem wordCount_empty_counterexample :
    wordCount "" = 1 ∧ specTokenCount "" = 0 ∧ 0 < wordCount "" := by
  refine ⟨by decide, by decide, by decide⟩

/-- C8 (amended): on non-empty cleaned (normalized) content the computed
`wordCount` equals the count of whitespace-delimited tokens (on empty
content it is 1, not 0); `readingTime` is exactly the ceiling of
`wordCount / 200` (the least `k` with `wordCount ≤ 200k`); and
`readingTime ≥ 1` whenever `wordCount > 0` — which always holds, even
for empty content. -/
theorem wordCount_readingTime_amended :
    (∀ raw : String, normalizeText raw ≠ "" →
        wordCount (normalizeText raw) = specTokenCount (normalizeText raw))
    ∧ (∀ w : Nat, w ≤ 200 * readingTime w ∧
        ∀ k : Nat, w ≤ 200 * k → readingTime w ≤ k)
    ∧ (∀ w : Nat, 0 < w → 1 ≤ readingTime w) := by
  refine ⟨?_, ?_, ?_⟩
  · intro raw hne
    have hdata : (normalizeText raw).data ≠ [] := by
      intro h
      exact hne (String.ext h)
    rw [wordCount_formula]
    have h1 : startsWs (normalizeText raw).data = false := by
      simp only [startsWs]
      cases hh : (normalizeText raw).data.head? with
      | none => rfl
      | some c => exact normalizeText_head raw c hh
    have h2 : endsBlank (normalizeText raw).data = false := by
      simp only [endsBlank]
      cases hh : (normalizeText raw).data.getLast? with
      | none => exact absurd (List.getLast?_eq_none_iff.mp hh) hdata
      | some c => exact normalizeText_getLast raw c hh
    rw [h1, h2]
    simp
  · intro w
    refine ⟨?_, ?_⟩
    · rw [readingTime]
      omega
    · intro k hk
      rw [readingTime]
      omega
  · intro w hw
    rw [readingTime]
    omega

/-- Witness for C8 (amended): on the non-empty normalized content
`"a b"` the word count equals the token count, and a single word reads
in one minute. -/
theorem wordCount_readingTime_amended_witness :
    wordCount (normalizeText "a b") = specTokenCount (normalizeText "a b") ∧
    1 ≤ readingTime 1 :=
  ⟨wordCount_readingTime_amended.1 "a b" (by decide),
   wordCount_readingTime_amended.2.2 1 (by decide)⟩

/-- C10: the computed `wordCount` is at least 1 for every content string;
in particular the empty cleaned content gets `wordCount = 1` (the JS
split of the empty string yields one empty token) and hence
`readingTime = 1`. -/
theorem wordCount_min_one :
    (∀ s : String, 1 ≤ wordCount s) ∧ wordCount "" = 1 ∧
      readingTime (wordCount "") = 1 := by
  refine ⟨?_, by decide, by decide⟩
  intro s
  rw [wordCount, jsSplitWs, List.length_map]
  exact jsSplitAux_length_ge_one s.data false []

/-- Witness for C10: applied to a concrete string. -/
theorem wordCount_min_one_witness : 1 ≤ wordCount "x" :=
  wordCount_min_one.1 "x"

end BrowsingDigest
